import Mathlib

/-!
Verification of the authentication core of the Social-Commerce-App backend
(`backend/auth_tokens.py`, `backend/auth_db.py`, `backend/auth_routes.py`).

Shallow embedding conventions:
* Byte strings are `List Nat` with every element `< 256`.
* Python `str` values are Lean `String` (or `List Char` where the code
  manipulates them positionally); the token wire strings are ASCII-only in
  every reachable path, so UTF-8 encoding of those is pointwise `Char.toNat`,
  but a full UTF-8 encoder is used where the source calls `.encode("utf-8")`.
* The HMAC-SHA256 primitive (`hmac.new(..., hashlib.sha256)`) and the
  PBKDF2 primitive (`hashlib.pbkdf2_hmac`) are external library functions;
  they are abstracted as function parameters, everything built on top of
  them is translated from the source.
* Fallible Python code (paths that can raise) is embedded in `Except`/`Option`.
-/

set_option linter.unusedVariables false

set_option maxHeartbeats 1000000

set_option linter.unusedTactic false

set_option maxRecDepth 4000

namespace AuthCore

/-! ## base64url codec (`base64.urlsafe_b64encode` / `_b64url_encode` /
`_b64url_decode` in `backend/auth_tokens.py`).

`_b64url_encode` strips the `=` padding, `_b64url_decode` re-adds it before
calling `base64.urlsafe_b64decode`.  The decoder below consumes 4-character
groups and treats a trailing group of 2 or 3 characters as the depadded final
group, exactly the composition of the two Python functions; it rejects
characters outside the urlsafe alphabet (Python's decoder would discard them,
a case no reachable input produces). -/

def b64alphabet : List Char :=
  ['A','B','C','D','E','F','G','H','I','J','K','L','M','N','O','P','Q','R','S','T','U','V','W','X','Y','Z',
   'a','b','c','d','e','f','g','h','i','j','k','l','m','n','o','p','q','r','s','t','u','v','w','x','y','z',
   '0','1','2','3','4','5','6','7','8','9','-','_']

def b64char (n : Nat) : Char := b64alphabet.getD n 'A'

def b64val (c : Char) : Option Nat := b64alphabet.indexOf? c

def b64encodeBytes : List Nat → List Char
  | b1 :: b2 :: b3 :: rest =>
      b64char (b1 / 4) :: b64char ((b1 % 4) * 16 + b2 / 16) ::
      b64char ((b2 % 16) * 4 + b3 / 64) :: b64char (b3 % 64) :: b64encodeBytes rest
  | [b1, b2] => [b64char (b1 / 4), b64char ((b1 % 4) * 16 + b2 / 16), b64char ((b2 % 16) * 4)]
  | [b1] => [b64char (b1 / 4), b64char ((b1 % 4) * 16)]
  | [] => []

def b64decodeChars : List Char → Option (List Nat)
  | c1 :: c2 :: c3 :: c4 :: rest => do
      let s1 ← b64val c1
      let s2 ← b64val c2
      let s3 ← b64val c3
      let s4 ← b64val c4
      let tail ← b64decodeChars rest
      pure ((s1 * 4 + s2 / 16) :: ((s2 % 16) * 16 + s3 / 4) :: ((s3 % 4) * 64 + s4) :: tail)
  | [c1, c2] => do
      let s1 ← b64val c1
      let s2 ← b64val c2
      pure [s1 * 4 + s2 / 16]
  | [c1, c2, c3] => do
      let s1 ← b64val c1
      let s2 ← b64val c2
      let s3 ← b64val c3
      pure [s1 * 4 + s2 / 16, (s2 % 16) * 16 + s3 / 4]
  | [_] => none
  | [] => some []

inductive JVal where
  | s (v : String)
  | i (v : Int)
deriving DecidableEq

abbrev Claims := List (String × JVal)

inductive PyJson where
  | dict (c : Claims)
  | prim (v : JVal)
deriving DecidableEq

def hexDigitB (n : Nat) : Nat := if n < 10 then 48 + n else 87 + n

def hex4 (n : Nat) : List Nat :=
  [hexDigitB (n / 4096 % 16), hexDigitB (n / 256 % 16), hexDigitB (n / 16 % 16), hexDigitB (n % 16)]

def hexValB (b : Nat) : Option Nat :=
  if 48 ≤ b ∧ b ≤ 57 then some (b - 48)
  else if 97 ≤ b ∧ b ≤ 102 then some (b - 87)
  else if 65 ≤ b ∧ b ≤ 70 then some (b - 55)
  else none

/-- One character of `json.dumps` string escaping (`ensure_ascii=True`):
`"` and `\` get a backslash escape, the five short control escapes are used,
other chars outside `0x20..0x7e` become `\uXXXX` (a surrogate pair above
`0xFFFF`), everything else is emitted literally. -/
def escapeChar (c : Char) : List Nat :=
  if c = '"' then [92, 34]
  else if c = '\\' then [92, 92]
  else if c.toNat = 8 then [92, 98]
  else if c.toNat = 9 then [92, 116]
  else if c.toNat = 10 then [92, 110]
  else if c.toNat = 12 then [92, 102]
  else if c.toNat = 13 then [92, 114]
  else if 32 ≤ c.toNat ∧ c.toNat ≤ 126 then [c.toNat]
  else if c.toNat < 65536 then 92 :: 117 :: hex4 c.toNat
  else 92 :: 117 :: hex4 (55296 + (c.toNat - 65536) / 1024) ++
       92 :: 117 :: hex4 (56320 + (c.toNat - 65536) % 1024)

def dumpString (s : String) : List Nat := 34 :: s.data.flatMap escapeChar ++ [34]

def natDigitsF : Nat → Nat → List Nat
  | 0, _ => []
  | fuel+1, n => if n < 10 then [48 + n] else natDigitsF fuel (n / 10) ++ [48 + n % 10]

/-- Decimal ASCII digits of a natural number (`str(n)` for `n ≥ 0`). -/
def natDigits (n : Nat) : List Nat := natDigitsF (n + 1) n

/-- `str(i)` for a Python int, as ASCII bytes (also the `json.dumps` form). -/
def dumpInt (i : Int) : List Nat :=
  if i < 0 then 45 :: natDigits (-i).toNat else natDigits i.toNat

def dumpJVal : JVal → List Nat
  | .s v => dumpString v
  | .i v => dumpInt v

def dumpPairs : Claims → List Nat
  | [] => []
  | [(k, v)] => dumpString k ++ 58 :: dumpJVal v
  | (k, v) :: rest => dumpString k ++ 58 :: dumpJVal v ++ 44 :: dumpPairs rest

/-- `json.dumps(c, separators=(",", ":")).encode("utf-8")` on the claims
fragment. -/
def dumpClaims (c : Claims) : List Nat := 123 :: dumpPairs c ++ [125]

def isWsB (b : Nat) : Bool := b == 32 || b == 9 || b == 10 || b == 13

def skipWs : List Nat → List Nat
  | [] => []
  | b :: r => if isWsB b then skipWs r else b :: r

def simpleEsc (e : Nat) : Option Char :=
  if e = 34 then some '"'
  else if e = 92 then some '\\'
  else if e = 47 then some '/'
  else if e = 98 then some (Char.ofNat 8)
  else if e = 102 then some (Char.ofNat 12)
  else if e = 110 then some (Char.ofNat 10)
  else if e = 114 then some (Char.ofNat 13)
  else if e = 116 then some (Char.ofNat 9)
  else none

def hex4Val (h1 h2 h3 h4 : Nat) : Option Nat := do
  let v1 ← hexValB h1
  let v2 ← hexValB h2
  let v3 ← hexValB h3
  let v4 ← hexValB h4
  pure (v1 * 4096 + v2 * 256 + v3 * 16 + v4)

/-- JSON string body parser (after the opening quote): returns the decoded
characters and the bytes after the closing quote.  The fuel argument only
bounds recursion depth; one unit is consumed per decoded character, so any
fuel above the byte length is enough. -/
def parseSurr (rec : List Nat → Option (List Char × List Nat)) (v : Nat) :
    List Nat → Option (List Char × List Nat)
  | 92 :: 117 :: g1 :: g2 :: g3 :: g4 :: r4 =>
    match hex4Val g1 g2 g3 g4 with
    | none => none
    | some w =>
      if 56320 ≤ w ∧ w ≤ 57343 then
        (rec r4).map (fun p => (Char.ofNat (65536 + (v - 55296) * 1024 + (w - 56320)) :: p.1, p.2))
      else none
  | _ => none

def parseUEsc (rec : List Nat → Option (List Char × List Nat)) (h1 h2 h3 h4 : Nat)
    (r3 : List Nat) : Option (List Char × List Nat) :=
  match hex4Val h1 h2 h3 h4 with
  | none => none
  | some v =>
    if v < 55296 ∨ 57343 < v then (rec r3).map (fun p => (Char.ofNat v :: p.1, p.2))
    else if v ≤ 56319 then parseSurr rec v r3
    else none

def parseEscPart (rec : List Nat → Option (List Char × List Nat)) :
    List Nat → Option (List Char × List Nat)
  | 117 :: h1 :: h2 :: h3 :: h4 :: r3 => parseUEsc rec h1 h2 h3 h4 r3
  | e :: r2 =>
    match simpleEsc e with
    | none => none
    | some c => (rec r2).map (fun p => (c :: p.1, p.2))
  | [] => none

def parseStrBody (rec : List Nat → Option (List Char × List Nat)) :
    List Nat → Option (List Char × List Nat)
  | [] => none
  | b :: r =>
    if b = 34 then some ([], r)
    else if b = 92 then parseEscPart rec r
    else if 32 ≤ b ∧ b ≤ 127 then (rec r).map (fun p => (Char.ofNat b :: p.1, p.2))
    else none

def parseStrF : Nat → List Nat → Option (List Char × List Nat)
  | 0, _ => none
  | fuel + 1, l => parseStrBody (parseStrF fuel) l

def parseStr (l : List Nat) : Option (List Char × List Nat) := parseStrF (l.length + 1) l

def spanDigits : List Nat → (List Nat × List Nat)
  | [] => ([], [])
  | b :: r =>
    if 48 ≤ b ∧ b ≤ 57 then
      let p := spanDigits r
      (b :: p.1, p.2)
    else ([], b :: r)

def isFloatStart : List Nat → Bool
  | 46 :: _ => true
  | 101 :: _ => true
  | 69 :: _ => true
  | _ => false

def parseNat (l : List Nat) : Option (Nat × List Nat) :=
  match spanDigits l with
  | ([], _) => none
  | (ds, rest) =>
    if isFloatStart rest then none
    else if ds.head? = some 48 ∧ 1 < ds.length then none
    else some (ds.foldl (fun a b => a * 10 + (b - 48)) 0, rest)

def parseJInt : List Nat → Option (Int × List Nat)
  | 45 :: r => (parseNat r).map (fun p => (-(p.1 : Int), p.2))
  | l => (parseNat l).map (fun p => ((p.1 : Int), p.2))

def parseJVal : List Nat → Option (JVal × List Nat)
  | 34 :: r => (parseStr r).map (fun p => (JVal.s (String.mk p.1), p.2))
  | l => (parseJInt l).map (fun p => (JVal.i p.1, p.2))

def parsePairs : Nat → List Nat → Option (Claims × List Nat)
  | 0, _ => none
  | fuel + 1, l =>
    match skipWs l with
    | 34 :: r =>
      match parseStr r with
      | none => none
      | some (k, r1) =>
        match skipWs r1 with
        | 58 :: r2 =>
          match parseJVal (skipWs r2) with
          | none => none
          | some (v, r3) =>
            match skipWs r3 with
            | 44 :: r4 => (parsePairs fuel r4).map (fun p => ((String.mk k, v) :: p.1, p.2))
            | 125 :: r4 => some ([(String.mk k, v)], r4)
            | _ => none
        | _ => none
    | _ => none

def parseTop (l : List Nat) : Option (PyJson × List Nat) :=
  match skipWs l with
  | 123 :: r =>
    if (skipWs r).head? = some 125 then some (.dict [], (skipWs r).tail)
    else (parsePairs ((skipWs r).length + 1) (skipWs r)).map (fun p => (PyJson.dict p.1, p.2))
  | l' => (parseJVal l').map (fun p => (PyJson.prim p.1, p.2))

/-- `json.loads(bytes.decode("utf-8"))` on the modelled fragment: parse one
JSON document and reject trailing data. -/
def jsonLoads (l : List Nat) : Option PyJson :=
  match parseTop l with
  | some (v, rest) => if (skipWs rest).isEmpty then some v else none
  | none => none

/-! ### Roundtrip: the parser inverts the serializer on the claims fragment. -/

/-- Head byte of the remaining input is not a digit and cannot extend the
number into a float literal. -/
def nonDigitHead : List Nat → Bool
  | [] => true
  | b :: _ => !(48 ≤ b && b ≤ 57) && b != 46 && b != 101 && b != 69

def utf8Char (c : Char) : List Nat :=
  let v := c.toNat
  if v < 128 then [v]
  else if v < 2048 then [192 + v / 64, 128 + v % 64]
  else if v < 65536 then [224 + v / 4096, 128 + v / 64 % 64, 128 + v % 64]
  else [240 + v / 262144, 128 + v / 4096 % 64, 128 + v / 64 % 64, 128 + v % 64]

def utf8 (cs : List Char) : List Nat := cs.flatMap utf8Char

/-- `_sign(signing_input)`: base64url (unpadded) of the HMAC digest of the
UTF-8 bytes of the signing input. -/
def signB (hmac : List Nat → List Nat) (signingInput : List Char) : List Char :=
  b64encodeBytes (hmac (utf8 signingInput))

/-- The fixed header dict `{"alg": "HS256", "typ": "JWT"}` (Python dicts keep
insertion order, so `json.dumps` serializes these two keys in this order). -/
def headerClaims : Claims := [("alg", .s "HS256"), ("typ", .s "JWT")]

/-- `_encode(payload)`. -/
def encodeTok (hmac : List Nat → List Nat) (payload : Claims) : List Char :=
  let headerPart := b64encodeBytes (dumpClaims headerClaims)
  let payloadPart := b64encodeBytes (dumpClaims payload)
  let signingInput := headerPart ++ '.' :: payloadPart
  signingInput ++ '.' :: signB hmac signingInput

/-- Python `str.split(sep)` for a one-character separator. -/
def splitOnChar (sep : Char) : List Char → List (List Char)
  | [] => [[]]
  | c :: r =>
    if c = sep then [] :: splitOnChar sep r
    else
      match splitOnChar sep r with
      | [] => [[c]]
      | p :: ps => (c :: p) :: ps

/-- The distinct `ValueError` conditions `_decode` can raise.  The first four
messages are the exact strings raised in the source; the last three stand for
exceptions raised inside library calls (`base64`/`json`/`int`), whose message
text is produced by the library (approximated here) — the callers in
`auth_routes.py` treat every `ValueError` alike. -/
inductive DecodeError where
  | malformed
  | invalidSignature
  | b64Error
  | jsonError
  | invalidPayload
  | intError
  | expired
deriving DecidableEq

def DecodeError.message : DecodeError → String
  | .malformed => "Malformed token"
  | .invalidSignature => "Invalid token signature"
  | .invalidPayload => "Invalid token payload"
  | .expired => "Token expired"
  | .b64Error => "Invalid base64-encoded string"
  | .jsonError => "Expecting value"
  | .intError => "invalid literal for int() with base 10"

/-- `payload.get(key)` on the parsed claims dict. -/
def claimsGet (c : Claims) (k : String) : Option JVal :=
  (c.find? (fun kv => kv.1 == k)).map (fun kv => kv.2)

def pyWsChar (c : Char) : Bool :=
  c == ' ' || c == '\t' || c == '\n' || c == '\r' || c == Char.ofNat 11 || c == Char.ofNat 12

/-- Python `str.strip()` (ASCII whitespace fragment). -/
def stripChars (l : List Char) : List Char :=
  ((l.dropWhile pyWsChar).reverse.dropWhile pyWsChar).reverse

def pyNatCore : List Char → Nat → Option Nat
  | [], acc => some acc
  | '_' :: c :: r, acc =>
    if c.isDigit then pyNatCore r (acc * 10 + (c.toNat - 48)) else none
  | c :: r, acc =>
    if c.isDigit then pyNatCore r (acc * 10 + (c.toNat - 48)) else none

/-- Python `int(s)` on a string: strip whitespace, optional sign, decimal
digits with single underscores allowed between digits; `none` models the
`ValueError` raise. -/
def pyIntOfString (s : String) : Option Int :=
  match stripChars s.data with
  | '-' :: c :: r =>
    if c.isDigit then (pyNatCore r (c.toNat - 48)).map (fun n => -(n : Int)) else none
  | '+' :: c :: r =>
    if c.isDigit then (pyNatCore r (c.toNat - 48)).map (fun n => (n : Int)) else none
  | c :: r =>
    if c.isDigit then (pyNatCore r (c.toNat - 48)).map (fun n => (n : Int)) else none
  | [] => none

/-- Python `int(v)` on a claims value (ints pass through, strings parse). -/
def pyIntOfJson : JVal → Option Int
  | .i n => some n
  | .s s => pyIntOfString s

/-- `int(payload.get("exp", 0))`. -/
def getExp (d : Claims) : Option Int := pyIntOfJson ((claimsGet d "exp").getD (.i 0))

/-- `_decode(token)` at whole-second epoch time `now`. -/
def decodeTok (hmac : List Nat → List Nat) (tok : List Char) (now : Int) :
    Except DecodeError Claims :=
  match splitOnChar '.' tok with
  | [p0, p1, p2] =>
    let signingInput := p0 ++ '.' :: p1
    if signB hmac signingInput = p2 then
      match b64decodeChars p1 with
      | none => .error .b64Error
      | some payloadBytes =>
        match jsonLoads payloadBytes with
        | none => .error .jsonError
        | some (.prim _) => .error .invalidPayload
        | some (.dict payload) =>
          match getExp payload with
          | none => .error .intError
          | some exp => if now ≥ exp then .error .expired else .ok payload
    else .error .invalidSignature
  | _ => .error .malformed

/-! ### Structure of `splitOnChar` on three dot-free parts. -/

/-! ### Serialized claims are bytes below 256. -/

def b64stdAlphabet : List Char :=
  ['A','B','C','D','E','F','G','H','I','J','K','L','M','N','O','P','Q','R','S','T','U','V','W','X','Y','Z',
   'a','b','c','d','e','f','g','h','i','j','k','l','m','n','o','p','q','r','s','t','u','v','w','x','y','z',
   '0','1','2','3','4','5','6','7','8','9','+','/']

def b64stdVal (c : Char) : Option Nat := b64stdAlphabet.indexOf? c

/-- Standard base64 decode with mandatory padding (`base64.b64decode` on
alphabet-plus-padding characters; a character count not divisible by four, or
misplaced padding, models the `binascii.Error` raise as `none`). -/
def pyB64decodeCore : List Char → Option (List Nat)
  | [] => some []
  | [c1, c2, '=', '='] => do
      let s1 ← b64stdVal c1
      let s2 ← b64stdVal c2
      pure [s1 * 4 + s2 / 16]
  | [c1, c2, c3, '='] => do
      let s1 ← b64stdVal c1
      let s2 ← b64stdVal c2
      let s3 ← b64stdVal c3
      pure [s1 * 4 + s2 / 16, (s2 % 16) * 16 + s3 / 4]
  | c1 :: c2 :: c3 :: c4 :: rest => do
      let s1 ← b64stdVal c1
      let s2 ← b64stdVal c2
      let s3 ← b64stdVal c3
      let s4 ← b64stdVal c4
      let tail ← pyB64decodeCore rest
      pure ((s1 * 4 + s2 / 16) :: ((s2 % 16) * 16 + s3 / 4) :: ((s3 % 4) * 64 + s4) :: tail)
  | _ => none

def pyB64decode (s : String) : Option (List Nat) :=
  pyB64decodeCore (s.data.filter (fun c => (b64stdVal c).isSome || c == '='))

inductive PyExc where
  | valueError (msg : String)
deriving DecidableEq

/-- `verify_password(password, password_hash)`; `pbkdf2` abstracts
`hashlib.pbkdf2_hmac("sha256", password, salt, iterations)`. -/
def verify_password (pbkdf2 : String → List Nat → Int → List Nat)
    (password password_hash : String) : Except PyExc Bool :=
  match splitOnChar '$' password_hash.data with
  | [algorithm, iterations_text, salt_b64, key_b64] =>
    if algorithm ≠ "pbkdf2_sha256".data then .ok false
    else
      match pyIntOfString (String.mk iterations_text) with
      | none => .error (.valueError "invalid literal for int() with base 10")
      | some iterations =>
        match pyB64decode (String.mk salt_b64) with
        | none => .error (.valueError "Invalid base64-encoded string")
        | some salt =>
          match pyB64decode (String.mk key_b64) with
          | none => .error (.valueError "Invalid base64-encoded string")
          | some expected =>
            .ok (pbkdf2 password salt iterations == expected)
  | _ => .ok false

/-! ## Refresh token ledger (`save_refresh_token` / `is_refresh_token_valid` /
`revoke_refresh_token` in `backend/auth_db.py`).

The `refresh_tokens` table keyed by the token string is an association list;
`INSERT OR REPLACE` is remove-then-insert.  `created_at` is an uninterpreted
timestamp string (never read back by any logic). -/

structure TokenRecord where
  user_id : Int
  expires_at : Int
  created_at : String
  revoked : Nat
deriving DecidableEq

abbrev Ledger := List (List Char × TokenRecord)

def ledgerLookup (st : Ledger) (tok : List Char) : Option TokenRecord :=
  (st.find? (fun kv => kv.1 == tok)).map (fun kv => kv.2)

/-- `save_refresh_token(token, user_id, expires_at)`: upsert with
`revoked = 0`. -/
def save_refresh_token (st : Ledger) (tok : List Char) (uid : Int) (expiresAt : Int)
    (createdAt : String) : Ledger :=
  (tok, ⟨uid, expiresAt, createdAt, 0⟩) :: st.filter (fun kv => !(kv.1 == tok))

/-- `is_refresh_token_valid(token)` at epoch time `now`. -/
def is_refresh_token_valid (st : Ledger) (tok : List Char) (now : Int) : Bool :=
  match ledgerLookup st tok with
  | none => false
  | some row => if row.revoked == 1 then false else decide (row.expires_at > now)

/-- `revoke_refresh_token(token)`: set `revoked = 1` on the matching row. -/
def revoke_refresh_token (st : Ledger) (tok : List Char) : Ledger :=
  st.map (fun kv => if kv.1 == tok then (kv.1, { kv.2 with revoked := 1 }) else kv)

/-! ## User directory and session routes (`backend/auth_routes.py`,
user queries from `backend/auth_db.py`). -/

structure UserRow where
  id : Int
  full_name : String
  username : String
  email : String
  password_hash : String
  provider : Option String
  created_at : String
deriving DecidableEq

abbrev UserDB := List UserRow

def pyLower (s : String) : String := String.mk (s.data.map Char.toLower)

def pyStrip (s : String) : String := String.mk (stripChars s.data)

/-- `email.strip().lower()`. -/
def normalizeEmail (e : String) : String := pyLower (pyStrip e)

structure PublicUser where
  id : Int
  full_name : String
  username : String
  email : String
  provider : Option String
  created_at : String
deriving DecidableEq

/-- `_public_user(row)`. -/
def publicUser (u : UserRow) : PublicUser :=
  ⟨u.id, u.full_name, u.username, u.email, u.provider, u.created_at⟩

def get_user_by_id_row (db : UserDB) (uid : Int) : Option UserRow :=
  db.find? (fun u => u.id == uid)

/-- `authenticate_user(email, password)`: lookup by normalized email, then
verify; `None` on both a missing account and a failing password.  A raise
escaping `verify_password` propagates. -/
def authenticate_user (pbkdf2 : String → List Nat → Int → List Nat) (db : UserDB)
    (email password : String) : Except PyExc (Option PublicUser) :=
  match db.find? (fun u => u.email == normalizeEmail email) with
  | none => .ok none
  | some row =>
    match verify_password pbkdf2 password row.password_hash with
    | .error e => .error e
    | .ok false => .ok none
    | .ok true => .ok (some (publicUser row))

/-- The route-level email regex `^[^\s@]+@[^\s@]+\.[^\s@]+$`: exactly one `@`,
a nonempty whitespace-free local part, and a domain part containing a dot
that is neither its first nor its last character. -/
def hasMidDot (l : List Char) : Bool :=
  (List.range l.length).any
    (fun i => decide (l.getD i ' ' = '.') && decide (0 < i) && decide (i + 1 < l.length))

def emailRegexMatch (s : String) : Bool :=
  match splitOnChar '@' s.data with
  | [pre, post] =>
    (!pre.isEmpty) && pre.all (fun c => !pyWsChar c) && post.all (fun c => !pyWsChar c) &&
      hasMidDot post
  | _ => false

/-- `str.startswith(pat)` on character lists. -/
def startsWithChars : List Char → List Char → Bool
  | _, [] => true
  | [], _ :: _ => false
  | c :: cs, p :: ps => c == p && startsWithChars cs ps

structure HTTPError where
  statusCode : Nat
  detail : String
deriving DecidableEq

instance {e a : Type} [DecidableEq e] [DecidableEq a] : DecidableEq (Except e a) := fun x y =>
  match x, y with
  | .error e1, .error e2 =>
    if h : e1 = e2 then .isTrue (by rw [h]) else .isFalse (fun hh => by cases hh; exact h rfl)
  | .ok v1, .ok v2 =>
    if h : v1 = v2 then .isTrue (by rw [h]) else .isFalse (fun hh => by cases hh; exact h rfl)
  | .error _, .ok _ => .isFalse (fun hh => by cases hh)
  | .ok _, .error _ => .isFalse (fun hh => by cases hh)

structure AuthResponse where
  message : String
  user : PublicUser
  access_token : List Char
  refresh_token : List Char
deriving DecidableEq

/-- `create_access_token(user_id, email)` at time `now` with the random
`jti` drawn by `secrets.token_hex` supplied as a parameter. -/
def create_access_token (hmac : List Nat → List Nat) (now : Int) (userId : Int)
    (email : String) (jti : String) : List Char :=
  encodeTok hmac [("sub", .s (toString userId)), ("email", .s email), ("type", .s "access"),
    ("iat", .i now), ("exp", .i (now + 1800)), ("jti", .s jti)]

/-- `create_refresh_token(user_id, email)`. -/
def create_refresh_token (hmac : List Nat → List Nat) (now : Int) (userId : Int)
    (email : String) (jti : String) : List Char :=
  encodeTok hmac [("sub", .s (toString userId)), ("email", .s email), ("type", .s "refresh"),
    ("iat", .i now), ("exp", .i (now + 604800)), ("jti", .s jti)]

/-- `_build_auth_response(message, user)`: mint both tokens, persist the
refresh token, return the response and the updated ledger. -/
def build_auth_response (hmac : List Nat → List Nat) (st : Ledger) (now : Int)
    (jtiA jtiR : String) (message : String) (user : PublicUser) :
    Except HTTPError AuthResponse × Ledger :=
  let access := create_access_token hmac now user.id user.email jtiA
  let refresh := create_refresh_token hmac now user.id user.email jtiR
  (.ok ⟨message, user, access, refresh⟩, save_refresh_token st refresh user.id (now + 604800) "")

/-- The `/auth/login` route body.  An exception escaping `authenticate_user`
surfaces as FastAPI's generic 500. -/
def login (pbkdf2 : String → List Nat → Int → List Nat) (hmac : List Nat → List Nat)
    (db : UserDB) (st : Ledger) (now : Int) (jtiA jtiR : String)
    (email password : String) : Except HTTPError AuthResponse × Ledger :=
  let ne := normalizeEmail email
  if !emailRegexMatch ne then (.error ⟨422, "Enter a valid email address."⟩, st)
  else
    match authenticate_user pbkdf2 db ne password with
    | .error _ => (.error ⟨500, "Internal Server Error"⟩, st)
    | .ok none => (.error ⟨401, "Invalid email or password."⟩, st)
    | .ok (some user) => build_auth_response hmac st now jtiA jtiR "Signed in" user

/-- The `/auth/refresh` route body (`refresh_token` in `auth_routes.py`). -/
def refresh_route (hmac : List Nat → List Nat) (db : UserDB) (st : Ledger) (now : Int)
    (jtiA jtiR : String) (refreshToken : String) : Except HTTPError AuthResponse × Ledger :=
  let t := (pyStrip refreshToken).data
  if !is_refresh_token_valid st t now then (.error ⟨401, "Invalid refresh token."⟩, st)
  else
    match decodeTok hmac t now with
    | .error e => (.error ⟨401, e.message⟩, revoke_refresh_token st t)
    | .ok payload =>
      if claimsGet payload "type" = some (.s "refresh") then
        match pyIntOfJson ((claimsGet payload "sub").getD (.s "0")) with
        | none => (.error ⟨500, "Internal Server Error"⟩, st)
        | some uid =>
          match get_user_by_id_row db uid with
          | none => (.error ⟨401, "User not found."⟩, revoke_refresh_token st t)
          | some user =>
            build_auth_response hmac (revoke_refresh_token st t) now jtiA jtiR
              "Token refreshed" (publicUser user)
      else (.error ⟨401, "Invalid token type."⟩, st)

/-- `get_current_user(authorization)` — bearer-token identity resolution. -/
def get_current_user (hmac : List Nat → List Nat) (db : UserDB) (now : Int)
    (authorization : Option String) : Except HTTPError PublicUser :=
  match authorization with
  | none => .error ⟨401, "Missing bearer token."⟩
  | some auth =>
    if !startsWithChars auth.data "Bearer ".data then .error ⟨401, "Missing bearer token."⟩
    else
      match decodeTok hmac (stripChars (auth.data.drop 7)) now with
      | .error e => .error ⟨401, e.message⟩
      | .ok payload =>
        if claimsGet payload "type" = some (.s "access") then
          match pyIntOfJson ((claimsGet payload "sub").getD (.s "0")) with
          | none => .error ⟨500, "Internal Server Error"⟩
          | some uid =>
            match get_user_by_id_row db uid with
            | none => .error ⟨401, "User not found."⟩
            | some user => .ok (publicUser user)
        else .error ⟨401, "Invalid token type."⟩

/-! ### Ledger lemmas. -/

/-- The wire format stated by the spec: `base64url(header_json) "." ++
base64url(payload_json) ++ "." ++ base64url(hmac_sha256(secret,
base64url(header_json) ++ "." ++ base64url(payload_json)))` with unpadded
base64url throughout (the secret is folded into the abstract `hmac`). -/
def specWireFormat (hmac : List Nat → List Nat) (headerJson payloadJson : List Nat) :
    List Char :=
  b64encodeBytes headerJson ++ '.' :: b64encodeBytes payloadJson ++ '.' ::
    b64encodeBytes (hmac (utf8 (b64encodeBytes headerJson ++ '.' :: b64encodeBytes payloadJson)))

/-- The exact byte string the spec requires for the serialized header:
`{"alg":"HS256","typ":"JWT"}` with no whitespace, keys in that order. -/
def headerJsonBytes : List Nat :=
  "\x7b\"alg\":\"HS256\",\"typ\":\"JWT\"\x7d".data.map Char.toNat

def wC5p1 : List Char := b64encodeBytes (dumpClaims [("exp", JVal.i 9)])

def wC5sig : List Char := signB (fun _ => [3]) (['A'] ++ '.' :: wC5p1)

def wC3hm : List Nat → List Nat := fun _ => []

def wC3r : String := String.mk (create_refresh_token wC3hm 0 1 "e" "j")

def wC3user : UserRow := ⟨1, "n", "u", "e", "ph", none, "c"⟩

def wC3st : Ledger := save_refresh_token [] wC3r.data 1 604800 ""

def wC3d : Claims :=
  [("sub", JVal.s "1"), ("email", JVal.s "e"), ("type", JVal.s "refresh"),
   ("iat", JVal.i 0), ("exp", JVal.i 604800), ("jti", JVal.s "j")]

def wC7row : UserRow := ⟨1, "n", "u", "a@b.c", "pbkdf2_sha256$1$QQ==$QR==", none, "c"⟩

/-! ## Theorems. -/

theorem b64val_b64char : ∀ n < 64, b64val (b64char n) = some n := by decide

theorem b64alphabet_length : b64alphabet.length = 64 := by decide

theorem b64char_mem (n : Nat) : b64char n ∈ b64alphabet := by
  unfold b64char
  rcases Nat.lt_or_ge n 64 with h | h
  · have hl : n < b64alphabet.length := b64alphabet_length ▸ h
    rw [List.getD_eq_getElem b64alphabet 'A' hl]
    exact List.getElem_mem hl
  · have hg : b64alphabet.length ≤ n := b64alphabet_length ▸ h
    rw [List.getD_eq_default _ _ hg]
    decide

theorem b64encodeBytes_mem (bs : List Nat) :
    ∀ c ∈ b64encodeBytes bs, c ∈ b64alphabet := by
  induction bs using b64encodeBytes.induct with
  | case1 b1 b2 b3 rest ih =>
      intro c hc
      rw [b64encodeBytes] at hc
      simp only [List.mem_cons] at hc
      rcases hc with h | h | h | h | h
      all_goals first
        | (subst h; exact b64char_mem _)
        | exact ih c h
  | case2 b1 b2 =>
      intro c hc
      rw [b64encodeBytes] at hc
      simp only [List.mem_cons, List.not_mem_nil, or_false] at hc
      rcases hc with h | h | h <;> (subst h; exact b64char_mem _)
  | case3 b1 =>
      intro c hc
      rw [b64encodeBytes] at hc
      simp only [List.mem_cons, List.not_mem_nil, or_false] at hc
      rcases hc with h | h <;> (subst h; exact b64char_mem _)
  | case4 =>
      intro c hc
      rw [b64encodeBytes] at hc
      simp at hc

theorem b64encodeBytes_no_dot (bs : List Nat) : '.' ∉ b64encodeBytes bs := by
  intro h
  have := b64encodeBytes_mem bs '.' h
  revert this
  decide

theorem b64encodeBytes_no_eq (bs : List Nat) : '=' ∉ b64encodeBytes bs := by
  intro h
  have := b64encodeBytes_mem bs '=' h
  revert this
  decide

theorem b64_roundtrip (bs : List Nat) (h : ∀ b ∈ bs, b < 256) :
    b64decodeChars (b64encodeBytes bs) = some bs := by
  induction bs using b64encodeBytes.induct with
  | case1 b1 b2 b3 rest ih =>
      have h1 : b1 < 256 := h b1 (by simp)
      have h2 : b2 < 256 := h b2 (by simp)
      have h3 : b3 < 256 := h b3 (by simp)
      have hrest : b64decodeChars (b64encodeBytes rest) = some rest :=
        ih (fun b hb => h b (by simp [hb]))
      rw [b64encodeBytes]
      rw [b64decodeChars]
      rw [b64val_b64char _ (by omega), b64val_b64char _ (by omega),
          b64val_b64char _ (by omega), b64val_b64char _ (by omega)]
      simp only [Option.bind_eq_bind, Option.some_bind, hrest]
      have e1 : b1 / 4 * 4 + ((b1 % 4) * 16 + b2 / 16) / 16 = b1 := by omega
      have e2 : ((b1 % 4) * 16 + b2 / 16) % 16 * 16 + ((b2 % 16) * 4 + b3 / 64) / 4 = b2 := by
        omega
      have e3 : ((b2 % 16) * 4 + b3 / 64) % 4 * 64 + b3 % 64 = b3 := by omega
      rw [e1, e2, e3]
      rfl
  | case2 b1 b2 =>
      have h1 : b1 < 256 := h b1 (by simp)
      have h2 : b2 < 256 := h b2 (by simp)
      rw [b64encodeBytes]
      rw [b64decodeChars]
      rw [b64val_b64char _ (by omega), b64val_b64char _ (by omega),
          b64val_b64char _ (by omega)]
      simp only [Option.bind_eq_bind, Option.some_bind]
      have e1 : b1 / 4 * 4 + ((b1 % 4) * 16 + b2 / 16) / 16 = b1 := by omega
      have e2 : ((b1 % 4) * 16 + b2 / 16) % 16 * 16 + ((b2 % 16) * 4) / 4 = b2 := by omega
      rw [e1, e2]
      rfl
  | case3 b1 =>
      have h1 : b1 < 256 := h b1 (by simp)
      rw [b64encodeBytes]
      rw [b64decodeChars]
      rw [b64val_b64char _ (by omega), b64val_b64char _ (by omega)]
      simp only [Option.bind_eq_bind, Option.some_bind]
      rw [show b1 / 4 * 4 + ((b1 % 4) * 16) / 16 = b1 by omega]
      rfl
  | case4 =>
      rw [b64encodeBytes, b64decodeChars]

/-! ## JSON codec for claims payloads.

The source serializes claim dictionaries with
`json.dumps(payload, separators=(",", ":")).encode("utf-8")` and parses with
`json.loads(payload_bytes.decode("utf-8"))`.  Every claims value the program
builds is a flat string-keyed mapping whose values are strings or ints, so
the embedded value type is that fragment.  `json.dumps` runs with its default
`ensure_ascii=True`, hence its output is pure ASCII and the serializer below
produces the UTF-8 bytes directly.  The parser models `json.loads` on that
fragment; it rejects inputs the claims layer never produces (floats, nested
containers, `true`/`false`/`null`, non-ASCII bytes, lone surrogate escapes)
where Python would build values outside the fragment. -/

theorem skipWs_cons (b : Nat) (r : List Nat) (h : isWsB b = false) :
    skipWs (b :: r) = b :: r := by
  rw [skipWs, h]
  simp

theorem hexValB_hexDigitB : ∀ n < 16, hexValB (hexDigitB n) = some n := by decide

theorem char_range (c : Char) : c.toNat < 55296 ∨ (57343 < c.toNat ∧ c.toNat < 1114112) := by
  have h := c.valid
  unfold UInt32.isValidChar Nat.isValidChar at h
  unfold Char.toNat
  rcases h with h | ⟨h1, h2⟩
  · left; exact h
  · right; constructor <;> omega

theorem char_eq_of_toNat (c : Char) (n : Nat) (h : c.toNat = n) : Char.ofNat n = c := by
  rw [← h, Char.ofNat_toNat]

theorem parseStrF_one (fuel : Nat) (c : Char) (l : List Nat) (cs : List Char) (r : List Nat)
    (hcont : parseStrF fuel l = some (cs, r)) :
    parseStrF (fuel + 1) (escapeChar c ++ l) = some (c :: cs, r) := by
  unfold escapeChar
  split_ifs with h1 h2 h3 h4 h5 h6 h7 h8 h9
  · subst h1
    simp only [List.cons_append, List.nil_append]
    rw [parseStrF, parseStrBody]
    norm_num [parseEscPart, simpleEsc, hcont]
  · subst h2
    simp only [List.cons_append, List.nil_append]
    rw [parseStrF, parseStrBody]
    norm_num [parseEscPart, simpleEsc, hcont]
  · simp only [List.cons_append, List.nil_append]
    rw [parseStrF, parseStrBody]
    norm_num [parseEscPart, simpleEsc, hcont]
    all_goals first
      | (intros; omega)
      | exact char_eq_of_toNat c 8 h3
  · simp only [List.cons_append, List.nil_append]
    rw [parseStrF, parseStrBody]
    norm_num [parseEscPart, simpleEsc, hcont]
    all_goals first
      | (intros; omega)
      | exact char_eq_of_toNat c 9 h4
  · simp only [List.cons_append, List.nil_append]
    rw [parseStrF, parseStrBody]
    norm_num [parseEscPart, simpleEsc, hcont]
    all_goals first
      | (intros; omega)
      | exact char_eq_of_toNat c 10 h5
  · simp only [List.cons_append, List.nil_append]
    rw [parseStrF, parseStrBody]
    norm_num [parseEscPart, simpleEsc, hcont]
    all_goals first
      | (intros; omega)
      | exact char_eq_of_toNat c 12 h6
  · simp only [List.cons_append, List.nil_append]
    rw [parseStrF, parseStrBody]
    norm_num [parseEscPart, simpleEsc, hcont]
    all_goals first
      | (intros; omega)
      | exact char_eq_of_toNat c 13 h7
  · -- literal printable ASCII character
    have hb1 : ¬(c.toNat = 34) := fun hh => h1 ((char_eq_of_toNat c 34 hh).symm.trans (by decide))
    have hb2 : ¬(c.toNat = 92) := fun hh => h2 ((char_eq_of_toNat c 92 hh).symm.trans (by decide))
    have hcond : 32 ≤ c.toNat ∧ c.toNat ≤ 127 := ⟨h8.1, by omega⟩
    simp only [List.cons_append, List.nil_append]
    rw [parseStrF, parseStrBody]
    rw [if_neg hb1, if_neg hb2, if_pos hcond, hcont, Char.ofNat_toNat]
    simp
  · -- short \uXXXX escape
    have hnots : c.toNat < 55296 ∨ 57343 < c.toNat := by
      rcases char_range c with hr | hr
      · exact Or.inl hr
      · exact Or.inr hr.1
    simp only [hex4, List.cons_append, List.nil_append]
    rw [parseStrF, parseStrBody]
    rw [if_neg (show ¬((92:Nat) = 34) by decide), if_pos (show (92:Nat) = 92 from rfl)]
    rw [parseEscPart, parseUEsc]
    rw [show hex4Val (hexDigitB (c.toNat / 4096 % 16)) (hexDigitB (c.toNat / 256 % 16))
        (hexDigitB (c.toNat / 16 % 16)) (hexDigitB (c.toNat % 16)) = some c.toNat by
      unfold hex4Val
      rw [hexValB_hexDigitB _ (by omega), hexValB_hexDigitB _ (by omega),
          hexValB_hexDigitB _ (by omega), hexValB_hexDigitB _ (by omega)]
      simp only [Option.bind_eq_bind, Option.some_bind]
      exact congrArg some (by omega)]
    simp only
    rw [if_pos hnots, hcont, Char.ofNat_toNat]
    simp
  · -- surrogate pair escape for a character above 0xFFFF
    have ht : 65536 ≤ c.toNat ∧ c.toNat < 1114112 := by
      rcases char_range c with hr | hr
      · omega
      · exact ⟨by omega, hr.2⟩
    have hhi : 55296 + (c.toNat - 65536) / 1024 ≤ 56319 := by omega
    have hlo : 56320 ≤ 56320 + (c.toNat - 65536) % 1024 ∧
        56320 + (c.toNat - 65536) % 1024 ≤ 57343 := by omega
    simp only [hex4, List.cons_append, List.nil_append, List.append_assoc]
    rw [parseStrF, parseStrBody]
    rw [if_neg (show ¬((92:Nat) = 34) by decide), if_pos (show (92:Nat) = 92 from rfl)]
    rw [parseEscPart, parseUEsc]
    rw [show hex4Val (hexDigitB ((55296 + (c.toNat - 65536) / 1024) / 4096 % 16))
        (hexDigitB ((55296 + (c.toNat - 65536) / 1024) / 256 % 16))
        (hexDigitB ((55296 + (c.toNat - 65536) / 1024) / 16 % 16))
        (hexDigitB ((55296 + (c.toNat - 65536) / 1024) % 16)) =
        some (55296 + (c.toNat - 65536) / 1024) by
      unfold hex4Val
      rw [hexValB_hexDigitB _ (by omega), hexValB_hexDigitB _ (by omega),
          hexValB_hexDigitB _ (by omega), hexValB_hexDigitB _ (by omega)]
      simp only [Option.bind_eq_bind, Option.some_bind]
      exact congrArg some (by omega)]
    simp only
    rw [if_neg (by omega), if_pos hhi]
    rw [parseSurr]
    rw [show hex4Val (hexDigitB ((56320 + (c.toNat - 65536) % 1024) / 4096 % 16))
        (hexDigitB ((56320 + (c.toNat - 65536) % 1024) / 256 % 16))
        (hexDigitB ((56320 + (c.toNat - 65536) % 1024) / 16 % 16))
        (hexDigitB ((56320 + (c.toNat - 65536) % 1024) % 16)) =
        some (56320 + (c.toNat - 65536) % 1024) by
      unfold hex4Val
      rw [hexValB_hexDigitB _ (by omega), hexValB_hexDigitB _ (by omega),
          hexValB_hexDigitB _ (by omega), hexValB_hexDigitB _ (by omega)]
      simp only [Option.bind_eq_bind, Option.some_bind]
      exact congrArg some (by omega)]
    simp only
    rw [if_pos hlo, hcont]
    rw [show 65536 + (55296 + (c.toNat - 65536) / 1024 - 55296) * 1024 +
        (56320 + (c.toNat - 65536) % 1024 - 56320) = c.toNat from by omega]
    rw [Char.ofNat_toNat]
    simp

theorem parseStrF_escape (cs : List Char) : ∀ fuel : Nat, cs.length < fuel → ∀ rest : List Nat,
    parseStrF fuel (cs.flatMap escapeChar ++ 34 :: rest) = some (cs, rest) := by
  induction cs with
  | nil =>
      intro fuel hfuel rest
      cases fuel with
      | zero => omega
      | succ f =>
          simp only [List.flatMap_nil, List.nil_append]
          rw [parseStrF, parseStrBody]
          norm_num
  | cons c cs ih =>
      intro fuel hfuel rest
      cases fuel with
      | zero => omega
      | succ f =>
          rw [List.flatMap_cons, List.append_assoc]
          exact parseStrF_one f c _ cs _ (ih f (by simpa using hfuel) rest)

theorem escapeChar_length_pos (c : Char) : 1 ≤ (escapeChar c).length := by
  unfold escapeChar
  split_ifs <;> simp

theorem flatMap_escape_length (cs : List Char) :
    cs.length ≤ (cs.flatMap escapeChar).length := by
  induction cs with
  | nil => simp
  | cons c cs ih =>
      rw [List.flatMap_cons]
      simp only [List.length_append, List.length_cons]
      have := escapeChar_length_pos c
      omega

theorem parseStr_escape (cs : List Char) (rest : List Nat) :
    parseStr (cs.flatMap escapeChar ++ 34 :: rest) = some (cs, rest) := by
  unfold parseStr
  apply parseStrF_escape
  have := flatMap_escape_length cs
  simp only [List.length_append, List.length_cons]
  omega

theorem natDigitsF_congr : ∀ f1 : Nat, ∀ n : Nat, n < f1 → ∀ f2 : Nat, n < f2 →
    natDigitsF f1 n = natDigitsF f2 n := by
  intro f1
  induction f1 with
  | zero => intro n h; omega
  | succ f ih =>
    intro n h f2 h2
    cases f2 with
    | zero => omega
    | succ g =>
      rw [natDigitsF, natDigitsF]
      by_cases hn : n < 10
      · simp [hn]
      · simp only [hn, if_false]
        rw [ih (n / 10) (by omega) g (by omega)]

theorem natDigits_eq (n : Nat) :
    natDigits n = if n < 10 then [48 + n] else natDigits (n / 10) ++ [48 + n % 10] := by
  unfold natDigits
  rw [natDigitsF]
  by_cases hn : n < 10
  · simp [hn]
  · simp only [hn, if_false]
    rw [natDigitsF_congr n (n / 10) (by omega) (n / 10 + 1) (by omega)]

theorem natDigits_all_digit (n : Nat) : ∀ b ∈ natDigits n, 48 ≤ b ∧ b ≤ 57 := by
  induction n using Nat.strong_induction_on with
  | _ n ih =>
    intro b hb
    rw [natDigits_eq] at hb
    by_cases hn : n < 10
    · simp [hn] at hb
      omega
    · simp only [hn, if_false, List.mem_append, List.mem_singleton] at hb
      rcases hb with hb | hb
      · exact ih (n / 10) (by omega) b hb
      · omega

theorem natDigits_foldl (n : Nat) :
    (natDigits n).foldl (fun a b => a * 10 + (b - 48)) 0 = n := by
  induction n using Nat.strong_induction_on with
  | _ n ih =>
    rw [natDigits_eq]
    by_cases hn : n < 10
    · simp [hn]
    · simp only [hn, if_false]
      rw [List.foldl_append]
      rw [ih (n / 10) (by omega)]
      simp
      omega

theorem natDigits_ne_nil (n : Nat) : natDigits n ≠ [] := by
  rw [natDigits_eq]
  split <;> simp

theorem natDigits_head_ne_zero (n : Nat) (h : n ≠ 0) : (natDigits n).head? ≠ some 48 := by
  induction n using Nat.strong_induction_on with
  | _ n ih =>
    rw [natDigits_eq]
    by_cases hn : n < 10
    · simp [hn]
      omega
    · simp only [hn, if_false]
      rw [List.head?_append]
      cases hh : (natDigits (n / 10)).head? with
      | none => exact absurd (List.head?_eq_none_iff.mp hh) (natDigits_ne_nil (n / 10))
      | some b =>
        have hne := ih (n / 10) (by omega) (by omega)
        rw [hh] at hne
        simpa using hne

theorem spanDigits_append (ds r : List Nat) (hd : ∀ b ∈ ds, 48 ≤ b ∧ b ≤ 57)
    (hr : nonDigitHead r = true) : spanDigits (ds ++ r) = (ds, r) := by
  induction ds with
  | nil =>
    simp only [List.nil_append]
    cases r with
    | nil => rfl
    | cons b t =>
      rw [spanDigits]
      simp only [nonDigitHead] at hr
      rw [if_neg (by simp at hr; omega)]
  | cons d ds ih =>
    rw [List.cons_append, spanDigits]
    rw [if_pos (hd d (by simp))]
    rw [ih (fun b hb => hd b (by simp [hb]))]

theorem isFloatStart_false (r : List Nat) (hr : nonDigitHead r = true) :
    isFloatStart r = false := by
  cases r with
  | nil => rfl
  | cons b t =>
    simp only [nonDigitHead] at hr
    rw [isFloatStart.eq_def]
    split
    · simp_all
    · simp_all
    · simp_all
    · rfl

theorem parseNat_natDigits (n : Nat) (r : List Nat) (hr : nonDigitHead r = true) :
    parseNat (natDigits n ++ r) = some (n, r) := by
  have hspan : spanDigits (natDigits n ++ r) = (natDigits n, r) :=
    spanDigits_append _ _ (natDigits_all_digit n) hr
  obtain ⟨b, t, hbt⟩ : ∃ b t, natDigits n = b :: t := by
    cases hh : natDigits n with
    | nil => exact absurd hh (natDigits_ne_nil n)
    | cons b t => exact ⟨b, t, rfl⟩
  unfold parseNat
  rw [hspan, hbt]
  simp only
  rw [isFloatStart_false r hr]
  rw [if_neg (show ¬(false = true) by decide)]
  have hlead : ¬((b :: t).head? = some 48 ∧ 1 < (b :: t).length) := by
    intro ⟨hh, hl⟩
    by_cases hn : n < 10
    · rw [natDigits_eq] at hbt
      simp [hn] at hbt
      rcases hbt with ⟨hb1, ht⟩
      subst ht
      simp at hl
    · have := natDigits_head_ne_zero n (by omega)
      rw [hbt] at this
      exact this hh
  rw [if_neg hlead]
  rw [← hbt, natDigits_foldl]

theorem parseJInt_dumpInt (i : Int) (r : List Nat) (hr : nonDigitHead r = true) :
    parseJInt (dumpInt i ++ r) = some (i, r) := by
  by_cases hi : i < 0
  · rw [dumpInt, if_pos hi, List.cons_append]
    rw [parseJInt]
    rw [parseNat_natDigits _ r hr]
    simp
    omega
  · rw [dumpInt, if_neg hi]
    obtain ⟨b, t, hbt⟩ : ∃ b t, natDigits i.toNat = b :: t := by
      cases hh : natDigits i.toNat with
      | nil => exact absurd hh (natDigits_ne_nil i.toNat)
      | cons b t => exact ⟨b, t, rfl⟩
    have hb : 48 ≤ b ∧ b ≤ 57 := natDigits_all_digit i.toNat b (by rw [hbt]; simp)
    rw [hbt, List.cons_append]
    rw [parseJInt.eq_def]
    split
    · exfalso
      simp_all
    · rw [← List.cons_append, ← hbt]
      rw [parseNat_natDigits _ r hr]
      simp
      omega

theorem parseJVal_dumpJVal (v : JVal) (r : List Nat) (hr : nonDigitHead r = true) :
    parseJVal (dumpJVal v ++ r) = some (v, r) := by
  cases v with
  | s sv =>
    rw [dumpJVal, dumpString]
    rw [List.append_assoc, List.singleton_append, List.cons_append]
    rw [parseJVal]
    rw [parseStr_escape]
    simp
  | i iv =>
    rw [dumpJVal]
    obtain ⟨b, t, hbt, hb34⟩ : ∃ b t, dumpInt iv = b :: t ∧ ¬(b = 34) := by
      unfold dumpInt
      by_cases hi : iv < 0
      · simp only [hi, if_true]
        exact ⟨45, _, rfl, by omega⟩
      · simp only [hi, if_false]
        cases hh : natDigits iv.toNat with
        | nil => exact absurd hh (natDigits_ne_nil _)
        | cons b t =>
          have hb : 48 ≤ b ∧ b ≤ 57 := natDigits_all_digit _ b (by rw [hh]; simp)
          exact ⟨b, t, rfl, by omega⟩
    rw [hbt, List.cons_append]
    rw [parseJVal.eq_def]
    split
    · exfalso
      simp_all
    · rw [← List.cons_append, ← hbt]
      rw [parseJInt_dumpInt iv r hr]
      simp

theorem dumpJVal_head (v : JVal) :
    ∃ b t, dumpJVal v = b :: t ∧ isWsB b = false := by
  cases v with
  | s sv =>
    refine ⟨34, sv.data.flatMap escapeChar ++ [34], ?_, by decide⟩
    rw [dumpJVal, dumpString, List.cons_append]
  | i iv =>
    unfold dumpJVal dumpInt
    by_cases hi : iv < 0
    · exact ⟨45, natDigits (-iv).toNat, by simp [hi], by decide⟩
    · simp only [hi, if_false]
      cases hh : natDigits iv.toNat with
      | nil => exact absurd hh (natDigits_ne_nil _)
      | cons b t =>
        have hb : 48 ≤ b ∧ b ≤ 57 := natDigits_all_digit _ b (by rw [hh]; simp)
        refine ⟨b, t, rfl, ?_⟩
        simp only [isWsB]
        simp
        omega

theorem parsePairs_dump (kvs : Claims) : ∀ fuel : Nat, kvs.length ≤ fuel → kvs ≠ [] →
    ∀ r : List Nat, parsePairs fuel (dumpPairs kvs ++ 125 :: r) = some (kvs, r) := by
  induction kvs with
  | nil => intro fuel hf hne; exact absurd rfl hne
  | cons kv rest ih =>
    intro fuel hf hne r
    obtain ⟨k, v⟩ := kv
    cases fuel with
    | zero => simp at hf
    | succ f =>
      obtain ⟨bv, tv, hbv, hwv⟩ := dumpJVal_head v
      cases rest with
      | nil =>
        rw [show dumpPairs [(k, v)] = dumpString k ++ 58 :: dumpJVal v from rfl, dumpString]
        rw [parsePairs]
        simp only [List.append_assoc, List.cons_append, List.nil_append, List.singleton_append]
        rw [skipWs_cons 34 _ (by decide)]
        simp only []
        rw [parseStr_escape]
        simp only []
        rw [skipWs_cons 58 _ (by decide)]
        simp only []
        rw [hbv, List.cons_append, skipWs_cons bv _ hwv, ← List.cons_append, ← hbv]
        rw [parseJVal_dumpJVal v (125 :: r) rfl]
        rfl
      | cons kv2 rest2 =>
        rw [show dumpPairs ((k, v) :: kv2 :: rest2) =
            dumpString k ++ (58 :: dumpJVal v) ++ (44 :: dumpPairs (kv2 :: rest2)) from rfl,
          dumpString]
        rw [parsePairs]
        simp only [List.append_assoc, List.cons_append, List.nil_append, List.singleton_append]
        rw [skipWs_cons 34 _ (by decide)]
        simp only []
        rw [parseStr_escape]
        simp only []
        rw [skipWs_cons 58 _ (by decide)]
        simp only []
        rw [hbv, List.cons_append, skipWs_cons bv _ hwv, ← List.cons_append, ← hbv]
        rw [parseJVal_dumpJVal v (44 :: (dumpPairs (kv2 :: rest2) ++ 125 :: r)) rfl]
        simp only []
        rw [skipWs_cons 44 _ (by decide)]
        simp only []
        rw [ih f (by simp at hf ⊢; omega) (by simp) r]
        simp

theorem dumpPairs_length (kvs : Claims) : kvs.length ≤ (dumpPairs kvs).length := by
  induction kvs with
  | nil => simp [dumpPairs]
  | cons kv rest ih =>
    obtain ⟨k, v⟩ := kv
    cases rest with
    | nil =>
      rw [show dumpPairs [(k, v)] = dumpString k ++ 58 :: dumpJVal v from rfl, dumpString]
      simp
    | cons kv2 rest2 =>
      rw [show dumpPairs ((k, v) :: kv2 :: rest2) =
          dumpString k ++ (58 :: dumpJVal v) ++ (44 :: dumpPairs (kv2 :: rest2)) from rfl,
        dumpString]
      simp only [List.length_append, List.length_cons] at ih ⊢
      omega

theorem dumpPairs_head (k : String) (v : JVal) (rest : Claims) :
    ∃ t, dumpPairs ((k, v) :: rest) = 34 :: t := by
  cases rest with
  | nil =>
    refine ⟨k.data.flatMap escapeChar ++ [34] ++ 58 :: dumpJVal v, ?_⟩
    rw [show dumpPairs [(k, v)] = dumpString k ++ 58 :: dumpJVal v from rfl, dumpString]
    simp
  | cons kv2 rest2 =>
    refine ⟨k.data.flatMap escapeChar ++ [34] ++ (58 :: dumpJVal v) ++
      (44 :: dumpPairs (kv2 :: rest2)), ?_⟩
    rw [show dumpPairs ((k, v) :: kv2 :: rest2) =
        dumpString k ++ (58 :: dumpJVal v) ++ (44 :: dumpPairs (kv2 :: rest2)) from rfl,
      dumpString]
    simp

theorem jsonLoads_dumpClaims (c : Claims) : jsonLoads (dumpClaims c) = some (.dict c) := by
  cases c with
  | nil => decide
  | cons kv rest =>
    obtain ⟨k, v⟩ := kv
    obtain ⟨t, ht⟩ := dumpPairs_head k v rest
    unfold jsonLoads parseTop
    rw [dumpClaims, List.cons_append, skipWs_cons 123 _ (by decide)]
    simp only []
    rw [ht, List.cons_append, skipWs_cons 34 _ (by decide)]
    rw [if_neg (by simp)]
    rw [← List.cons_append, ← ht]
    have hfuel : ((k, v) :: rest).length ≤
        (dumpPairs ((k, v) :: rest) ++ [125]).length + 1 := by
      have h1 := dumpPairs_length ((k, v) :: rest)
      simp only [List.length_append, List.length_cons] at h1 ⊢
      omega
    rw [parsePairs_dump ((k, v) :: rest) _ hfuel (by simp) []]
    rfl

/-! ## Token codec (`backend/auth_tokens.py`).

`_sign` is HMAC-SHA256 under the process secret followed by unpadded
base64url; the HMAC primitive itself is external library code and enters the
embedding as an abstract function `hmac : List Nat → List Nat` from message
bytes to digest bytes.  `_encode`/`_decode` below are translated line by line
from the source. -/

theorem splitOnChar_no_sep (sep : Char) (l : List Char) (h : sep ∉ l) :
    splitOnChar sep l = [l] := by
  induction l with
  | nil => rfl
  | cons c r ih =>
    rw [splitOnChar]
    rw [if_neg (fun hc => h (by simp [hc]))]
    rw [ih (fun hc => h (by simp [hc]))]

theorem splitOnChar_sep_cons (sep : Char) (a rest : List Char) (ha : sep ∉ a) :
    splitOnChar sep (a ++ sep :: rest) = a :: splitOnChar sep rest := by
  induction a with
  | nil =>
    simp only [List.nil_append]
    rw [splitOnChar, if_pos rfl]
  | cons c t ih =>
    rw [List.cons_append, splitOnChar]
    rw [if_neg (fun hc => ha (by simp [hc]))]
    rw [ih (fun hc => ha (by simp [hc]))]

theorem splitOnChar_three (sep : Char) (a b c : List Char)
    (ha : sep ∉ a) (hb : sep ∉ b) (hc : sep ∉ c) :
    splitOnChar sep (a ++ sep :: (b ++ sep :: c)) = [a, b, c] := by
  rw [splitOnChar_sep_cons sep a _ ha, splitOnChar_sep_cons sep b _ hb,
    splitOnChar_no_sep sep c hc]

theorem hexDigitB_lt (n : Nat) (h : n < 16) : hexDigitB n < 256 := by
  unfold hexDigitB
  split <;> omega

theorem hex4_lt (n : Nat) : ∀ b ∈ hex4 n, b < 256 := by
  intro b hb
  simp only [hex4, List.mem_cons, List.not_mem_nil, or_false] at hb
  rcases hb with hb | hb | hb | hb <;> (subst hb; exact hexDigitB_lt _ (by omega))

theorem escapeChar_lt (c : Char) : ∀ b ∈ escapeChar c, b < 256 := by
  unfold escapeChar
  split_ifs with h1 h2 h3 h4 h5 h6 h7 h8 h9
  all_goals intro b hb
  · simp only [List.mem_cons, List.not_mem_nil, or_false] at hb
    rcases hb with hb | hb <;> omega
  · simp only [List.mem_cons, List.not_mem_nil, or_false] at hb
    rcases hb with hb | hb <;> omega
  · simp only [List.mem_cons, List.not_mem_nil, or_false] at hb
    rcases hb with hb | hb <;> omega
  · simp only [List.mem_cons, List.not_mem_nil, or_false] at hb
    rcases hb with hb | hb <;> omega
  · simp only [List.mem_cons, List.not_mem_nil, or_false] at hb
    rcases hb with hb | hb <;> omega
  · simp only [List.mem_cons, List.not_mem_nil, or_false] at hb
    rcases hb with hb | hb <;> omega
  · simp only [List.mem_cons, List.not_mem_nil, or_false] at hb
    rcases hb with hb | hb <;> omega
  · simp only [List.mem_cons, List.not_mem_nil, or_false] at hb
    subst hb
    omega
  · simp only [List.mem_cons] at hb
    rcases hb with hb | hb | hb
    · omega
    · omega
    · exact hex4_lt _ b hb
  · simp only [List.cons_append, List.mem_cons, List.mem_append] at hb
    rcases hb with hb | hb | (hb | (hb | hb | hb))
    · omega
    · omega
    · exact hex4_lt _ b hb
    · omega
    · omega
    · exact hex4_lt _ b hb

theorem dumpString_lt (s : String) : ∀ b ∈ dumpString s, b < 256 := by
  intro b hb
  rw [dumpString] at hb
  simp only [List.cons_append, List.mem_cons, List.mem_append, List.mem_flatMap] at hb
  rcases hb with hb | ⟨x, hx, hbx⟩ | hb
  · omega
  · exact escapeChar_lt x b hbx
  · simp at hb
    omega

theorem dumpJVal_lt (v : JVal) : ∀ b ∈ dumpJVal v, b < 256 := by
  cases v with
  | s sv => exact dumpString_lt sv
  | i iv =>
    intro b hb
    rw [dumpJVal, dumpInt] at hb
    split at hb
    · simp only [List.mem_cons] at hb
      rcases hb with hb | hb
      · omega
      · have := natDigits_all_digit _ b hb
        omega
    · have := natDigits_all_digit _ b hb
      omega

theorem dumpPairs_lt (kvs : Claims) : ∀ b ∈ dumpPairs kvs, b < 256 := by
  induction kvs with
  | nil => intro b hb; simp [dumpPairs] at hb
  | cons kv rest ih =>
    obtain ⟨k, v⟩ := kv
    intro b hb
    cases rest with
    | nil =>
      rw [show dumpPairs [(k, v)] = dumpString k ++ 58 :: dumpJVal v from rfl] at hb
      simp only [List.mem_append, List.mem_cons] at hb
      rcases hb with hb | hb | hb
      · exact dumpString_lt k b hb
      · omega
      · exact dumpJVal_lt v b hb
    | cons kv2 rest2 =>
      rw [show dumpPairs ((k, v) :: kv2 :: rest2) =
          dumpString k ++ (58 :: dumpJVal v) ++ (44 :: dumpPairs (kv2 :: rest2)) from rfl] at hb
      simp only [List.mem_append, List.mem_cons] at hb
      rcases hb with (hb | hb | hb) | hb | hb
      · exact dumpString_lt k b hb
      · omega
      · exact dumpJVal_lt v b hb
      · omega
      · exact ih b hb

theorem dumpClaims_lt (c : Claims) : ∀ b ∈ dumpClaims c, b < 256 := by
  intro b hb
  rw [dumpClaims] at hb
  simp only [List.cons_append, List.mem_cons, List.mem_append] at hb
  rcases hb with hb | hb | hb
  · omega
  · exact dumpPairs_lt c b hb
  · simp at hb
    omega

theorem signB_no_dot (hmac : List Nat → List Nat) (si : List Char) :
    '.' ∉ signB hmac si := b64encodeBytes_no_dot _

theorem encodeTok_shape (hmac : List Nat → List Nat) (c : Claims) :
    encodeTok hmac c =
      b64encodeBytes (dumpClaims headerClaims) ++ '.' ::
        (b64encodeBytes (dumpClaims c) ++ '.' ::
          signB hmac (b64encodeBytes (dumpClaims headerClaims) ++ '.' ::
            b64encodeBytes (dumpClaims c))) := by
  rw [show encodeTok hmac c =
      (b64encodeBytes (dumpClaims headerClaims) ++ '.' :: b64encodeBytes (dumpClaims c)) ++
        '.' :: signB hmac (b64encodeBytes (dumpClaims headerClaims) ++ '.' ::
          b64encodeBytes (dumpClaims c)) from rfl]
  rw [List.append_assoc, List.cons_append]

theorem decodeTok_encodeTok (hmac : List Nat → List Nat) (c : Claims) (now e : Int)
    (he : getExp c = some e) (hnow : now < e) :
    decodeTok hmac (encodeTok hmac c) now = .ok c := by
  unfold decodeTok
  rw [encodeTok_shape]
  rw [splitOnChar_three '.' _ _ _ (b64encodeBytes_no_dot _) (b64encodeBytes_no_dot _)
    (signB_no_dot hmac _)]
  simp only [if_true]
  rw [b64_roundtrip _ (dumpClaims_lt c)]
  simp only []
  rw [jsonLoads_dumpClaims]
  simp only []
  rw [he]
  simp only []
  rw [if_neg (by omega)]

theorem decodeTok_expiry_core (hmac : List Nat → List Nat) (p0 p1 p2 : List Char)
    (now : Int) (bytes : List Nat) (d : Claims) (e : Int)
    (h0 : '.' ∉ p0) (h1 : '.' ∉ p1) (h2 : '.' ∉ p2)
    (hsig : signB hmac (p0 ++ '.' :: p1) = p2)
    (hb : b64decodeChars p1 = some bytes)
    (hj : jsonLoads bytes = some (.dict d))
    (he : getExp d = some e) :
    (decodeTok hmac (p0 ++ '.' :: (p1 ++ '.' :: p2)) now = .error .expired ↔ e ≤ now) ∧
    (now < e → decodeTok hmac (p0 ++ '.' :: (p1 ++ '.' :: p2)) now = .ok d) := by
  unfold decodeTok
  rw [splitOnChar_three '.' _ _ _ h0 h1 h2]
  simp only []
  rw [if_pos hsig, hb]
  simp only []
  rw [hj]
  simp only []
  rw [he]
  simp only []
  by_cases hcase : e ≤ now
  · rw [if_pos (by omega)]
    exact ⟨iff_of_true rfl hcase, fun hlt => absurd hcase (by omega)⟩
  · rw [if_neg (by omega)]
    exact ⟨iff_of_false (by simp) hcase, fun _ => rfl⟩

theorem decodeTok_badsig (hmac : List Nat → List Nat) (p0 p1 p2 : List Char) (now : Int)
    (h0 : '.' ∉ p0) (h1 : '.' ∉ p1) (h2 : '.' ∉ p2)
    (hsig : signB hmac (p0 ++ '.' :: p1) ≠ p2) :
    decodeTok hmac (p0 ++ '.' :: (p1 ++ '.' :: p2)) now = .error .invalidSignature := by
  unfold decodeTok
  rw [splitOnChar_three '.' _ _ _ h0 h1 h2]
  simp only []
  rw [if_neg hsig]

/-! ## Credential codec (`hash_password` / `verify_password` in
`backend/auth_db.py`).

`verify_password` splits the stored hash on `$`; a wrong field count raises
`ValueError` inside the `try` and returns `False`.  The subsequent
`int(iterations_text)` and the two `base64.b64decode` calls sit OUTSIDE the
`try` block, so their `ValueError`/`binascii.Error` raises propagate — the
embedding returns `.error` there.  The PBKDF2 primitive is abstract. -/

theorem ledgerLookup_save_self (st : Ledger) (tok : List Char) (uid expiresAt : Int)
    (createdAt : String) :
    ledgerLookup (save_refresh_token st tok uid expiresAt createdAt) tok =
      some ⟨uid, expiresAt, createdAt, 0⟩ := by
  unfold save_refresh_token ledgerLookup
  rw [List.find?_cons]
  simp

theorem find?_filter_ne (st : Ledger) (tok tok2 : List Char) (h : ¬tok2 = tok) :
    (st.filter (fun kv => !(kv.1 == tok))).find? (fun kv => kv.1 == tok2) =
      st.find? (fun kv => kv.1 == tok2) := by
  induction st with
  | nil => rfl
  | cons kv rest ih =>
    by_cases hk : kv.1 = tok
    · rw [List.filter_cons]
      simp only [hk, beq_self_eq_true, Bool.not_true, Bool.false_eq_true, if_false]
      rw [ih, List.find?_cons]
      have : (kv.1 == tok2) = false := by
        rw [hk]
        exact beq_eq_false_iff_ne.mpr (fun hh => h hh.symm)
      rw [this]
    · rw [List.filter_cons]
      have hkb : (kv.1 == tok) = false := beq_eq_false_iff_ne.mpr hk
      simp only [hkb, Bool.not_false, if_true]
      rw [List.find?_cons, List.find?_cons]
      cases hh : (kv.1 == tok2) with
      | true => rfl
      | false => exact ih

theorem ledgerLookup_save_other (st : Ledger) (tok tok2 : List Char) (uid expiresAt : Int)
    (createdAt : String) (h : ¬tok2 = tok) :
    ledgerLookup (save_refresh_token st tok uid expiresAt createdAt) tok2 =
      ledgerLookup st tok2 := by
  unfold save_refresh_token ledgerLookup
  rw [List.find?_cons]
  have : (tok == tok2) = false := beq_eq_false_iff_ne.mpr (fun hh => h hh.symm)
  rw [this, find?_filter_ne st tok tok2 h]

theorem ledgerLookup_revoke_self (st : Ledger) (tok : List Char) :
    ledgerLookup (revoke_refresh_token st tok) tok =
      (ledgerLookup st tok).map (fun rec => { rec with revoked := 1 }) := by
  induction st with
  | nil => rfl
  | cons kv rest ih =>
    unfold revoke_refresh_token ledgerLookup at ih ⊢
    rw [List.map_cons, List.find?_cons, List.find?_cons]
    cases hh : (kv.1 == tok) with
    | true =>
      simp only [hh, if_true]
      simp
    | false =>
      simp only [hh, Bool.false_eq_true, if_false]
      exact ih

theorem is_refresh_token_valid_iff (st : Ledger) (tok : List Char) (now : Int) :
    is_refresh_token_valid st tok now = true ↔
      ∃ row, ledgerLookup st tok = some row ∧ row.revoked ≠ 1 ∧ now < row.expires_at := by
  unfold is_refresh_token_valid
  cases hl : ledgerLookup st tok with
  | none => simp
  | some row =>
    simp only [Option.some.injEq]
    by_cases hr : row.revoked = 1
    · simp [hr]
    · have : (row.revoked == 1) = false := by
        exact beq_eq_false_iff_ne.mpr hr
      simp only [this, Bool.false_eq_true, if_false, decide_eq_true_eq]
      constructor
      · intro hgt
        exact ⟨row, rfl, hr, hgt⟩
      · rintro ⟨row2, hrow2, hrev, hlt⟩
        cases hrow2
        exact hlt

/-! ## Claim theorems. -/

/-- C9: every token produced by `_encode` is bit-exactly
`base64url(header_json).base64url(payload_json).base64url(hmac(signing input))`
where `header_json` is exactly the byte string `{"alg":"HS256","typ":"JWT"}`
and no part carries `=` padding. -/
theorem claim_C9_wire_format (hmac : List Nat → List Nat) (c : Claims) :
    encodeTok hmac c = specWireFormat hmac headerJsonBytes (dumpClaims c) ∧
    dumpClaims headerClaims = headerJsonBytes ∧
    '=' ∉ encodeTok hmac c := by
  have hh : dumpClaims headerClaims = headerJsonBytes := by decide
  refine ⟨?_, hh, ?_⟩
  · rw [specWireFormat, ← hh]
    rfl
  · intro hmem
    rw [encodeTok_shape] at hmem
    simp only [List.mem_append, List.mem_cons] at hmem
    rcases hmem with hmem | hmem | hmem | hmem | hmem
    · exact b64encodeBytes_no_eq _ hmem
    · exact absurd hmem (by decide)
    · exact b64encodeBytes_no_eq _ hmem
    · exact absurd hmem (by decide)
    · exact b64encodeBytes_no_eq _ hmem

/-- C4: decoding an encoded claims mapping whose `exp` converts to an integer
strictly above the current time returns the claims unchanged. -/
theorem claim_C4_decode_encode_roundtrip (hmac : List Nat → List Nat) (c : Claims)
    (now e : Int) (he : getExp c = some e) (hnow : now < e) :
    decodeTok hmac (encodeTok hmac c) now = .ok c :=
  decodeTok_encodeTok hmac c now e he hnow

theorem claim_C4_witness :
    getExp [("exp", JVal.i 100), ("a", JVal.s "b")] = some 100 ∧
    decodeTok (fun _ => [7, 1]) (encodeTok (fun _ => [7, 1])
      [("exp", JVal.i 100), ("a", JVal.s "b")]) 5 =
      .ok [("exp", JVal.i 100), ("a", JVal.s "b")] :=
  ⟨by decide, claim_C4_decode_encode_roundtrip (fun _ => [7, 1])
    [("exp", JVal.i 100), ("a", JVal.s "b")] 5 100 (by decide) (by decide)⟩

/-- C5: for a three-part token whose signature verifies and whose payload
parses to a dict with an integer `exp`, decode fails with `TokenExpired`
exactly when `now ≥ exp`, and succeeds with the payload when `now < exp`. -/
theorem claim_C5_expiry_boundary (hmac : List Nat → List Nat) (p0 p1 p2 : List Char)
    (now : Int) (bytes : List Nat) (d : Claims) (e : Int)
    (h0 : '.' ∉ p0) (h1 : '.' ∉ p1) (h2 : '.' ∉ p2)
    (hsig : signB hmac (p0 ++ '.' :: p1) = p2)
    (hb : b64decodeChars p1 = some bytes)
    (hj : jsonLoads bytes = some (.dict d))
    (he : getExp d = some e) :
    (decodeTok hmac (p0 ++ '.' :: (p1 ++ '.' :: p2)) now = .error .expired ↔ e ≤ now) ∧
    (now < e → decodeTok hmac (p0 ++ '.' :: (p1 ++ '.' :: p2)) now = .ok d) :=
  decodeTok_expiry_core hmac p0 p1 p2 now bytes d e h0 h1 h2 hsig hb hj he

theorem claim_C5_witness :
    (decodeTok (fun _ => [3]) (['A'] ++ '.' :: (wC5p1 ++ '.' :: wC5sig)) 9 =
        .error .expired ↔ (9 : Int) ≤ 9) ∧
    ((9 : Int) < 9 → decodeTok (fun _ => [3]) (['A'] ++ '.' :: (wC5p1 ++ '.' :: wC5sig)) 9 =
        .ok [("exp", JVal.i 9)]) :=
  claim_C5_expiry_boundary (fun _ => [3]) ['A'] wC5p1 wC5sig 9
    (dumpClaims [("exp", JVal.i 9)]) [("exp", JVal.i 9)] 9 (by decide) (by decide)
    (by decide) rfl (by decide) (by decide) (by decide)

/-- C2: mutating the header or payload segment of a validly signed token into
different base64url text makes decode fail with `InvalidSignature`, for every
clock value and payload content — the signature is recomputed over the first
two parts and compared before the payload is parsed or the expiry consulted.
The hypothesis `hsig` is the collision-freedom of the HMAC on the two signing
inputs, which the spec asserts holds with overwhelming probability. -/
theorem claim_C2_bitflip_invalid_signature (hmac : List Nat → List Nat)
    (h p h2 p2 : List Char) (s : List Char) (now : Int)
    (horig : signB hmac (h ++ '.' :: p) = s)
    (hmut : (h2, p2) ≠ (h, p))
    (halpha : ∀ c ∈ h2 ++ p2, c ∈ b64alphabet)
    (hsig : signB hmac (h2 ++ '.' :: p2) ≠ s) :
    decodeTok hmac (h2 ++ '.' :: (p2 ++ '.' :: s)) now = .error .invalidSignature := by
  have hd2 : '.' ∉ h2 := fun hc => by
    have := halpha '.' (by simp [hc])
    revert this
    decide
  have hp2 : '.' ∉ p2 := fun hc => by
    have := halpha '.' (by simp [hc])
    revert this
    decide
  have hs : '.' ∉ s := by
    rw [← horig]
    exact signB_no_dot hmac _
  exact decodeTok_badsig hmac h2 p2 s now hd2 hp2 hs hsig

theorem claim_C2_witness :
    (((['Q', 'R'], ['A', 'A']) : List Char × List Char) ≠ (['Q', 'Q'], ['A', 'A'])) ∧
    signB (fun bs => bs) (['Q', 'R'] ++ '.' :: ['A', 'A']) ≠
      signB (fun bs => bs) (['Q', 'Q'] ++ '.' :: ['A', 'A']) ∧
    decodeTok (fun bs => bs)
        (['Q', 'R'] ++ '.' :: (['A', 'A'] ++ '.' ::
          signB (fun bs => bs) (['Q', 'Q'] ++ '.' :: ['A', 'A']))) 0 =
      .error .invalidSignature :=
  ⟨by decide, by decide,
    claim_C2_bitflip_invalid_signature (fun bs => bs) ['Q', 'Q'] ['A', 'A'] ['Q', 'R']
      ['A', 'A'] _ 0 rfl (by decide) (by decide) (by decide)⟩

/-- C10: a later `save_refresh_token` of the same token string overwrites the
row with `revoked = 0`, silently undoing an earlier revoke; the token
validates again whenever the new expiry is in the future. -/
theorem claim_C10_save_undoes_revoke (st : Ledger) (tok : List Char)
    (u e cr2u : Int) (cr : String) (e2 : Int) (cr2 : String) (now : Int)
    (h : now < e2) :
    ledgerLookup (save_refresh_token (revoke_refresh_token
        (save_refresh_token st tok u e cr) tok) tok cr2u e2 cr2) tok =
      some ⟨cr2u, e2, cr2, 0⟩ ∧
    is_refresh_token_valid (save_refresh_token (revoke_refresh_token
        (save_refresh_token st tok u e cr) tok) tok cr2u e2 cr2) tok now = true := by
  constructor
  · exact ledgerLookup_save_self _ tok cr2u e2 cr2
  · unfold is_refresh_token_valid
    rw [ledgerLookup_save_self _ tok cr2u e2 cr2]
    simp only []
    rw [if_neg (by decide)]
    simp only [decide_eq_true_eq]
    exact h

theorem claim_C10_witness :
    ((0 : Int) < 5) ∧
    ledgerLookup (save_refresh_token (revoke_refresh_token
        (save_refresh_token [] ['t'] 1 9 "a") ['t']) ['t'] 2 5 "b") ['t'] =
      some ⟨2, 5, "b", 0⟩ ∧
    is_refresh_token_valid (save_refresh_token (revoke_refresh_token
        (save_refresh_token [] ['t'] 1 9 "a") ['t']) ['t'] 2 5 "b") ['t'] 0 = true := by
  refine ⟨by decide, ?_, ?_⟩
  · exact (claim_C10_save_undoes_revoke [] ['t'] 1 9 2 "a" 5 "b" 0 (by decide)).1
  · exact (claim_C10_save_undoes_revoke [] ['t'] 1 9 2 "a" 5 "b" 0 (by decide)).2

/-- C6: `is_refresh_token_valid` is true iff a row exists, its revoked flag is
not set, and its expiry is strictly in the future; it is true right after a
save with future expiry, false right after a revoke, false when the record is
absent, and false once `now ≥ expires_at`. -/
theorem claim_C6_is_valid_spec (st : Ledger) (tok : List Char) (now : Int)
    (uid expiresAt : Int) (createdAt : String) :
    (is_refresh_token_valid st tok now = true ↔
      ∃ row, ledgerLookup st tok = some row ∧ row.revoked ≠ 1 ∧ now < row.expires_at) ∧
    (now < expiresAt →
      is_refresh_token_valid (save_refresh_token st tok uid expiresAt createdAt) tok now =
        true) ∧
    is_refresh_token_valid (revoke_refresh_token st tok) tok now = false ∧
    (ledgerLookup st tok = none → is_refresh_token_valid st tok now = false) ∧
    (∀ row, ledgerLookup st tok = some row → row.expires_at ≤ now →
      is_refresh_token_valid st tok now = false) := by
  refine ⟨is_refresh_token_valid_iff st tok now, ?_, ?_, ?_, ?_⟩
  · intro hlt
    unfold is_refresh_token_valid
    rw [ledgerLookup_save_self st tok uid expiresAt createdAt]
    simp only []
    rw [if_neg (by decide)]
    simp only [decide_eq_true_eq]
    exact hlt
  · unfold is_refresh_token_valid
    rw [ledgerLookup_revoke_self st tok]
    cases ledgerLookup st tok with
    | none => rfl
    | some row => simp
  · intro hnone
    unfold is_refresh_token_valid
    rw [hnone]
  · intro row hrow hle
    unfold is_refresh_token_valid
    rw [hrow]
    split
    · rfl
    · have hng : ¬(row.expires_at > now) := by omega
      simp_all

theorem claim_C6_witness :
    ((0 : Int) < 5) ∧
    is_refresh_token_valid (save_refresh_token [] ['t'] 1 5 "c") ['t'] 0 = true ∧
    is_refresh_token_valid (revoke_refresh_token (save_refresh_token [] ['t'] 1 5 "c") ['t'])
      ['t'] 0 = false ∧
    is_refresh_token_valid ([] : Ledger) ['t'] 0 = false := by
  refine ⟨by decide, ?_, ?_, ?_⟩
  · exact (claim_C6_is_valid_spec [] ['t'] 0 1 5 "c").2.1 (by decide)
  · exact (claim_C6_is_valid_spec (save_refresh_token [] ['t'] 1 5 "c") ['t'] 0 1 5 "c").2.2.1
  · exact (claim_C6_is_valid_spec [] ['t'] 0 1 5 "c").2.2.2.1 rfl

/-- C1: `verify_password` fails closed (returns false) on a wrong number of
`$`-delimited fields and on an unknown algorithm tag, but on a non-numeric
iteration field it raises an uncaught `ValueError` from `int(iterations_text)`
— that call sits outside the `try` block — contradicting the spec, which
requires `false` with no raise for all three malformed-input classes. -/
theorem claim_C1_verify_password_malformed :
    verify_password (fun _ _ _ => []) "x" "a$b" = .ok false ∧
    verify_password (fun _ _ _ => []) "x" "nothash$120000$QQ==$QQ==" = .ok false ∧
    verify_password (fun _ _ _ => []) "x" "pbkdf2_sha256$abc$QQ==$QQ==" =
      .error (.valueError "invalid literal for int() with base 10") := by
  exact ⟨rfl, rfl, rfl⟩

/-- C3: refresh tokens are single-use: with a saved, unexpired refresh token
that decodes to a `type="refresh"` payload for an existing user, the first
`refresh` call succeeds and revokes the presented token (the freshly minted
replacement differing from it, as its fresh `jti` guarantees), and a second
call with the same string fails with the invalid-refresh-token error. -/
theorem claim_C3_refresh_single_use (hmac : List Nat → List Nat) (db : UserDB)
    (st : Ledger) (now : Int) (jtiA jtiR : String) (r : String) (d : Claims)
    (uid : Int) (user : UserRow)
    (hstrip : pyStrip r = r)
    (hvalid : is_refresh_token_valid st r.data now = true)
    (hdec : decodeTok hmac r.data now = .ok d)
    (hty : claimsGet d "type" = some (.s "refresh"))
    (hsub : pyIntOfJson ((claimsGet d "sub").getD (.s "0")) = some uid)
    (huser : get_user_by_id_row db uid = some user)
    (hfresh : create_refresh_token hmac now user.id user.email jtiR ≠ r.data) :
    ∃ resp st2,
      refresh_route hmac db st now jtiA jtiR r = (.ok resp, st2) ∧
      is_refresh_token_valid st2 r.data now = false ∧
      ∀ jA2 jR2, (refresh_route hmac db st2 now jA2 jR2 r).1 =
        .error ⟨401, "Invalid refresh token."⟩ := by
  obtain ⟨row, hrow, hrev, hexp⟩ := (is_refresh_token_valid_iff st r.data now).mp hvalid
  have hne : ¬(r.data = create_refresh_token hmac now user.id user.email jtiR) :=
    fun hh => hfresh hh.symm
  have hv2 : is_refresh_token_valid
      (save_refresh_token (revoke_refresh_token st r.data)
        (create_refresh_token hmac now user.id user.email jtiR) user.id (now + 604800) "")
      r.data now = false := by
    unfold is_refresh_token_valid
    rw [ledgerLookup_save_other _ _ _ _ _ _ hne]
    rw [ledgerLookup_revoke_self, hrow]
    rfl
  refine ⟨⟨"Token refreshed", publicUser user,
      create_access_token hmac now user.id user.email jtiA,
      create_refresh_token hmac now user.id user.email jtiR⟩,
    save_refresh_token (revoke_refresh_token st r.data)
      (create_refresh_token hmac now user.id user.email jtiR) user.id (now + 604800) "",
    ?_, hv2, ?_⟩
  · unfold refresh_route
    rw [hstrip]
    simp only []
    rw [hvalid]
    simp only [Bool.not_true, Bool.false_eq_true, if_false]
    rw [hdec]
    simp only []
    rw [if_pos hty, hsub]
    simp only []
    rw [huser]
    rfl
  · intro jA2 jR2
    unfold refresh_route
    rw [hstrip]
    simp only []
    rw [hv2]
    rfl

/-- C7: login is account-enumeration safe: with a well-formed email, a login
against a database with no matching account and a login against a database
where the account exists but the password verifies false produce the
identical `401 Invalid email or password.` error. -/
theorem claim_C7_login_enumeration_safe (pbkdf2 : String → List Nat → Int → List Nat)
    (hmac : List Nat → List Nat) (db1 db2 : UserDB) (st1 st2 : Ledger)
    (now1 now2 : Int) (jA1 jR1 jA2 jR2 : String) (email password : String) (row : UserRow)
    (hre : emailRegexMatch (normalizeEmail email) = true)
    (habsent : db1.find? (fun u => u.email == normalizeEmail (normalizeEmail email)) = none)
    (hpresent : db2.find? (fun u => u.email == normalizeEmail (normalizeEmail email)) =
      some row)
    (hwrong : verify_password pbkdf2 password row.password_hash = .ok false) :
    (login pbkdf2 hmac db1 st1 now1 jA1 jR1 email password).1 =
      .error ⟨401, "Invalid email or password."⟩ ∧
    (login pbkdf2 hmac db2 st2 now2 jA2 jR2 email password).1 =
      .error ⟨401, "Invalid email or password."⟩ := by
  constructor
  · unfold login
    simp only []
    rw [hre]
    simp only [Bool.not_true, Bool.false_eq_true, if_false]
    unfold authenticate_user
    rw [habsent]
  · unfold login
    simp only []
    rw [hre]
    simp only [Bool.not_true, Bool.false_eq_true, if_false]
    unfold authenticate_user
    rw [hpresent]
    simp only []
    rw [hwrong]

/-- C8 counterexample: two decode failures produce client-visible responses
that differ in their detail string (`str(exc)`), so the response does
distinguish which token-layer failure occurred, contrary to the claim. -/
theorem claim_C8_counterexample :
    get_current_user (fun _ => []) [] 100 (some "Bearer x") =
      .error ⟨401, "Malformed token"⟩ ∧
    get_current_user (fun _ => []) [] 100
        (some (String.mk ("Bearer ".data ++ encodeTok (fun _ => []) [("exp", JVal.i 0)]))) =
      .error ⟨401, "Token expired"⟩ ∧
    ("Malformed token" : String) ≠ "Token expired" := by
  refine ⟨?_, ?_, ?_⟩ <;> decide

/-- C8 (amended): every decode failure in bearer-token resolution and in the
refresh route is surfaced with the uniform HTTP status 401, but the response
detail equals the specific decode error message (`str(exc)`), so the failure
class is client-distinguishable; no internal log records it. -/
theorem claim_C8_amended (hmac : List Nat → List Nat) (db : UserDB) (now : Int)
    (a : String) (e : DecodeError)
    (hpre : startsWithChars a.data "Bearer ".data = true)
    (hdec : decodeTok hmac (stripChars (a.data.drop 7)) now = .error e) :
    get_current_user hmac db now (some a) = .error ⟨401, e.message⟩ ∧
    (∀ st r jA2 jR2 e2, pyStrip r = r → is_refresh_token_valid st r.data now = true →
      decodeTok hmac r.data now = .error e2 →
      refresh_route hmac db st now jA2 jR2 r =
        (.error ⟨401, e2.message⟩, revoke_refresh_token st r.data)) := by
  constructor
  · unfold get_current_user
    simp only []
    rw [hpre]
    simp only [Bool.not_true, Bool.false_eq_true, if_false]
    rw [hdec]
  · intro st r jA2 jR2 e2 hstrip hvalid hdec2
    unfold refresh_route
    rw [hstrip]
    simp only []
    rw [hvalid]
    simp only [Bool.not_true, Bool.false_eq_true, if_false]
    rw [hdec2]

theorem claim_C8_amended_witness :
    get_current_user (fun _ => []) [] 0 (some "Bearer x") =
      .error ⟨401, DecodeError.malformed.message⟩ :=
  (claim_C8_amended (fun _ => []) [] 0 "Bearer x" .malformed (by decide) (by decide)).1

theorem claim_C3_witness :
    ∃ resp st2,
      refresh_route wC3hm [wC3user] wC3st 0 "a" "k" wC3r = (.ok resp, st2) ∧
      is_refresh_token_valid st2 wC3r.data 0 = false ∧
      ∀ jA2 jR2, (refresh_route wC3hm [wC3user] st2 0 jA2 jR2 wC3r).1 =
        .error ⟨401, "Invalid refresh token."⟩ :=
  claim_C3_refresh_single_use wC3hm [wC3user] wC3st 0 "a" "k" wC3r wC3d 1 wC3user
    (by decide) (by decide) (by decide) (by decide) (by decide) (by decide) (by decide)

theorem claim_C7_witness :
    (login (fun _ _ _ => [0]) (fun _ => []) [] [] 0 "x" "y" "a@b.c" "pw").1 =
      .error ⟨401, "Invalid email or password."⟩ ∧
    (login (fun _ _ _ => [0]) (fun _ => []) [wC7row] [] 0 "x" "y" "a@b.c" "pw").1 =
      .error ⟨401, "Invalid email or password."⟩ :=
  claim_C7_login_enumeration_safe (fun _ _ _ => [0]) (fun _ => []) [] [wC7row] [] [] 0 0
    "x" "y" "x" "y" "a@b.c" "pw" wC7row (by decide) (by decide) (by decide) (by decide)

theorem claim_C9_witness :
    encodeTok (fun _ => [5]) [("a", JVal.i 1)] =
      specWireFormat (fun _ => [5]) headerJsonBytes (dumpClaims [("a", JVal.i 1)]) ∧
    dumpClaims headerClaims = headerJsonBytes ∧
    '=' ∉ encodeTok (fun _ => [5]) [("a", JVal.i 1)] :=
  claim_C9_wire_format (fun _ => [5]) [("a", JVal.i 1)]

end AuthCore
